import Mathlib

/-!
Verification development for the dual-strategy bid-tabulation PDF parser
(`bidparse/scripts/parser_v2.py` and `bidparse/scripts/parser_v1.py`).

The extraction engine is shallowly embedded over `List Char` strings.  The
PDF decoder (pdfplumber) is out of scope per the specification: the engine
consumes, per page, (a) the page's plain text and (b) geometrically detected
table grids of cell strings, and those two products are the inputs of the
embedded functions.

Modelling conventions, stated once here:
* Python strings are `List Char` (`Str`); `None`-able values are `Option _`.
* Python floats are modelled as `ℚ`.  The parsers only convert decimal
  tokens to numbers and store or compare them (no arithmetic is performed
  on the parsed values), and on such tokens two values are equal as IEEE
  doubles exactly when the underlying decimal values are equal, so the
  rational model is exact for every property stated below.
* `float(x)` is modelled on finite decimal literals (optional sign, digits,
  optional fraction, optional exponent).  Python additionally accepts
  `inf`/`nan` and underscore-grouped digits; no input considered here (and
  no token reachable from the tokenizers' regexes) contains those forms.
* Character classes (`\w`, `\s`, `[A-Z]`, upper/lower-casing) are modelled
  at their ASCII meaning; the documents in scope are ASCII English reports.
* `str.splitlines` is modelled as splitting on `'\n'`, the separator the
  page texts actually contain.
* Regular-expression searches/substitutions of the source are hand-compiled
  to scanners with Python `re` semantics (leftmost match, greedy with
  backtracking, non-overlapping scan for `findall`/`finditer`/`sub`);
  each scanner's doc comment names the exact pattern it implements.
  Raw-string patterns of the source that contain a doubled backslash
  (for example `r"^[A-Z]\\d"`) denote a literal backslash in the regex and
  are embedded that way.
-/

abbrev Str := List Char

/-- Python `\s` at ASCII: space, tab, newline, carriage return, vertical tab, form feed. -/
def isSpaceChar (c : Char) : Bool :=
  c = ' ' || c = '\t' || c = '\n' || c = '\x0d' || c = '\x0b' || c = '\x0c'

/-- Python `\w` at ASCII: letters, digits, underscore. -/
def isWordChar (c : Char) : Bool :=
  c.isAlpha || c.isDigit || c = '_'

/-- Wordness of an optional neighbouring character; the edge of the string counts as non-word. -/
def wordAt : Option Char → Bool
  | some c => isWordChar c
  | none => false

/-- digit-or-comma class `[0-9,]`. -/
def isDigitComma (c : Char) : Bool := c.isDigit || c = ','

/-- Python `str.strip()` (no argument): trim whitespace at both ends. -/
def pyStrip (s : Str) : Str :=
  ((s.dropWhile isSpaceChar).reverse.dropWhile isSpaceChar).reverse

/-- Python `str.strip(" ,")`: trim spaces and commas at both ends. -/
def pyStripSC (s : Str) : Str :=
  let p := fun c => c = ' ' || c = ','
  ((s.dropWhile p).reverse.dropWhile p).reverse

/-- Python `str.lower()` at ASCII. -/
def pyLower (s : Str) : Str := s.map Char.toLower

/-- Python `sub in s` substring containment. -/
def containsSub (s pat : Str) : Bool :=
  match s with
  | [] => pat.isEmpty
  | _ :: rest => pat.isPrefixOf s || containsSub rest pat

/-- Python `s.startswith(pat)`. -/
def startsWith (s pat : Str) : Bool := pat.isPrefixOf s

/-- Split on newline, keeping a final empty piece. -/
def splitNl (s : Str) : List Str :=
  match s with
  | [] => [[]]
  | c :: rest =>
    let r := splitNl rest
    if c = '\n' then [] :: r
    else
      match r with
      | [] => [[c]]
      | l :: ls => (c :: l) :: ls

/-- Python `str.splitlines()`, modelled as splitting on newline: the empty
string yields no lines, and no empty final line is produced for a trailing
newline. -/
def splitLines (s : Str) : List Str :=
  match s with
  | [] => []
  | _ => if s.getLast? = some '\n' then (splitNl s).dropLast else splitNl s

theorem dropWhile_len_le {α : Type} (p : α → Bool) (s : List α) : (s.dropWhile p).length ≤ s.length := by
  induction s with
  | nil => simp [List.dropWhile]
  | cons c rest ih =>
    simp only [List.dropWhile]
    split
    · simp only [List.length_cons]
      omega
    · exact Nat.le_refl _

/-- Recursions that consume at least one character per step are written
structurally on a fuel argument instantiated at the input's length, so
that they compute by kernel reduction; each step recurses on a strictly
shorter string (for the scanners this is the content of the `*_len`
lemmas below), so the `0`-fuel branch is never reached from the wrapper. -/
def splitWsGo : Nat → Str → List Str
  | 0, _ => []
  | fuel + 1, s =>
    match s.dropWhile isSpaceChar with
    | [] => []
    | c :: rest =>
      (c :: rest).takeWhile (fun x => !isSpaceChar x) ::
        splitWsGo fuel (rest.dropWhile (fun x => !isSpaceChar x))

/-- Python `str.split()` (no argument): split on whitespace runs, dropping empties. -/
def splitWs (s : Str) : List Str := splitWsGo s.length s

/-- Join a list of strings with single spaces (Python `" ".join`). -/
def joinSpace (l : List Str) : Str :=
  match l with
  | [] => []
  | [x] => x
  | x :: rest => x ++ ' ' :: joinSpace rest

/-- Replace occurrences of a character by another (used for `page.replace("\n", " ")`). -/
def replaceChar (a b : Char) (s : Str) : Str :=
  s.map (fun c => if c = a then b else c)

/-- Remove every occurrence of the given characters (Python `x.replace("$","").replace(",","")`). -/
def removeChars (cs : List Char) (s : Str) : Str :=
  s.filter (fun c => !cs.contains c)

/-- Digits of a numeral to a natural number. -/
def natOfDigits (ds : Str) : Nat :=
  ds.foldl (fun n c => 10 * n + (c.toNat - '0'.toNat)) 0

/-- Python `float(x)` on finite decimal literals: optional sign, integer digits,
optional `.` and fraction digits (at least one digit overall), optional
`e`/`E` exponent with optional sign and at least one digit.  Returns `none`
exactly when the literal is malformed (Python raises `ValueError` there;
the callers below catch it and return `None`). -/
def pyFloat (s : Str) : Option ℚ :=
  let (neg, t) :=
    match s with
    | '-' :: t => (true, t)
    | '+' :: t => (false, t)
    | t => (false, t)
  let ip := t.takeWhile Char.isDigit
  let t1 := t.dropWhile Char.isDigit
  let (fp, t2) :=
    match t1 with
    | '.' :: u => (u.takeWhile Char.isDigit, u.dropWhile Char.isDigit)
    | u => ([], u)
  if ip.isEmpty && fp.isEmpty then none
  else
    let m : Nat := natOfDigits (ip ++ fp)
    let num : Int := if neg then -(m : Int) else (m : Int)
    match t2 with
    | [] => some (mkRat num (10 ^ fp.length))
    | e :: u =>
      if e = 'e' || e = 'E' then
        let (eneg, v) :=
          match u with
          | '-' :: v => (true, v)
          | '+' :: v => (false, v)
          | v => (false, v)
        let ed := v.takeWhile Char.isDigit
        let v1 := v.dropWhile Char.isDigit
        if ed.isEmpty || !v1.isEmpty then none
        else
          let k := natOfDigits ed
          some (if eneg then mkRat num (10 ^ fp.length * 10 ^ k)
            else mkRat (num * (10 : Int) ^ k) (10 ^ fp.length))
      else none

/-- `money_to_float` of the source: strip `$` and `,`, trim, then `float`,
returning `None` on `ValueError`. -/
def money_to_float (s : Str) : Option ℚ :=
  pyFloat (pyStrip (removeChars ['$', ','] s))

/-- `qty_to_float` of the source: strip `,`, trim, then `float`, returning
`None` on `ValueError`. -/
def qty_to_float (s : Str) : Option ℚ :=
  pyFloat (pyStrip (removeChars [','] s))

/-- `normalize_ws` of `parser_v2.py`: `re.sub(r"\s+", " ", s).strip()` —
collapse every whitespace run to a single space, then trim. -/
def normCollapse : Nat → Str → Str
  | 0, _ => []
  | _, [] => []
  | fuel + 1, c :: rest =>
    if isSpaceChar c then
      ' ' :: normCollapse fuel (rest.dropWhile isSpaceChar)
    else c :: normCollapse fuel rest

def normalize_ws (s : Str) : Str :=
  pyStrip (normCollapse s.length s)

/-! ### Regex scanners

Hand-compiled forms of the module-level patterns of `parser_v2.py`:
`MONEY_RE`, `PAY_ITEM_RE`, `LINE_ITEM_RE`, `QTY_RE`, and the local patterns
of its extraction functions. -/

/-- `LINE_ITEM_RE = \b([A-Z]\d{3,4})\b` matched at the current position,
`prev` being the character before it (`none` at the string edge).  Greedy:
four digits are preferred over three. -/
def lineItemAt (prev : Option Char) (s : Str) : Option Str :=
  match s with
  | [] => none
  | c :: rest =>
    if wordAt prev || !c.isUpper then none
    else
      match rest with
      | d1 :: d2 :: d3 :: t =>
        if !(d1.isDigit && d2.isDigit && d3.isDigit) then none
        else
          match t with
          | [] => some [c, d1, d2, d3]
          | d4 :: u =>
            if d4.isDigit && !wordAt u.head? then some [c, d1, d2, d3, d4]
            else if !isWordChar d4 then some [c, d1, d2, d3]
            else none
      | _ => none

/-- Leftmost `LINE_ITEM_RE.search`, returning the captured code. -/
def lineItemSearchGo (prev : Option Char) (s : Str) : Option Str :=
  match s with
  | [] => none
  | c :: rest =>
    match lineItemAt prev (c :: rest) with
    | some g => some g
    | none => lineItemSearchGo (some c) rest

def lineItemSearch (s : Str) : Option Str := lineItemSearchGo none s

/-- `LINE_ITEM_RE.fullmatch`. -/
def lineItemFull (s : Str) : Bool :=
  match s with
  | c :: d1 :: d2 :: d3 :: t =>
    c.isUpper && d1.isDigit && d2.isDigit && d3.isDigit &&
      (t.isEmpty || (match t with | [d4] => d4.isDigit | _ => false))
  | _ => false

/-- `PAY_ITEM_RE = \b(\d{5}-\d{4})\b` matched at the current position. -/
def payItemAt (prev : Option Char) (s : Str) : Option Str :=
  match s with
  | p1 :: p2 :: p3 :: p4 :: p5 :: h :: q1 :: q2 :: q3 :: q4 :: t =>
    if !wordAt prev && p1.isDigit && p2.isDigit && p3.isDigit && p4.isDigit && p5.isDigit &&
        h = '-' && q1.isDigit && q2.isDigit && q3.isDigit && q4.isDigit && !wordAt t.head? then
      some [p1, p2, p3, p4, p5, h, q1, q2, q3, q4]
    else none
  | _ => none

/-- Leftmost `PAY_ITEM_RE.search`, returning the captured code. -/
def payItemSearchGo (prev : Option Char) (s : Str) : Option Str :=
  match s with
  | [] => none
  | c :: rest =>
    match payItemAt prev (c :: rest) with
    | some g => some g
    | none => payItemSearchGo (some c) rest

def payItemSearch (s : Str) : Option Str := payItemSearchGo none s

/-- `PAY_ITEM_RE.fullmatch`. -/
def payItemFull (s : Str) : Bool :=
  match s with
  | [p1, p2, p3, p4, p5, h, q1, q2, q3, q4] =>
    p1.isDigit && p2.isDigit && p3.isDigit && p4.isDigit && p5.isDigit &&
      h = '-' && q1.isDigit && q2.isDigit && q3.isDigit && q4.isDigit
  | _ => false

/-- `QTY_RE.fullmatch` with `QTY_RE = \b([0-9][0-9,]*(?:\.[0-9]{3})?)\b`.
The trailing `\b` forces the last character to be a digit, so a trailing
comma is rejected; the optional fraction must have exactly three digits. -/
def qtyFull (s : Str) : Bool :=
  match s with
  | [] => false
  | c :: rest =>
    if !c.isDigit then false
    else
      let run := rest.takeWhile isDigitComma
      let rem := rest.dropWhile isDigitComma
      match rem with
      | [] => (run.getLastD c).isDigit
      | '.' :: t => decide (t.length = 3) && t.all Char.isDigit
      | _ => false

/-- `MONEY_RE = \$\s*([0-9][0-9,]*(?:\.[0-9]{2})?)` matched at a position:
returns the captured group and the remainder after the whole match. -/
def moneyGroupAt (s : Str) : Option (Str × Str) :=
  match s with
  | '$' :: t =>
    match t.dropWhile isSpaceChar with
    | d :: u =>
      if !d.isDigit then none
      else
        match u.dropWhile isDigitComma with
        | '.' :: a :: b :: v =>
          if a.isDigit && b.isDigit then
            some (d :: u.takeWhile isDigitComma ++ ['.', a, b], v)
          else some (d :: u.takeWhile isDigitComma, '.' :: a :: b :: v)
        | rem => some (d :: u.takeWhile isDigitComma, rem)
    | [] => none
  | _ => none

theorem moneyGroupAt_len {s g r : Str} (h : moneyGroupAt s = some (g, r)) :
    r.length < s.length := by
  unfold moneyGroupAt at h
  split at h
  case h_2 => exact absurd h (by simp)
  case h_1 t =>
    have ht1 : (t.dropWhile isSpaceChar).length ≤ t.length := dropWhile_len_le _ t
    split at h
    case h_2 => exact absurd h (by simp)
    case h_1 d u heq =>
      have hu : u.length + 1 ≤ t.length := by
        have := congrArg List.length heq
        simp only [List.length_cons] at this
        omega
      have hrem : (u.dropWhile isDigitComma).length ≤ u.length := dropWhile_len_le _ u
      split at h
      · exact absurd h (by simp)
      · split at h
        · rename_i a b v heq2
          rw [heq2] at hrem
          simp only [List.length_cons] at hrem
          split at h
          · simp only [Option.some.injEq, Prod.mk.injEq] at h
            obtain ⟨-, hr⟩ := h
            subst hr
            simp only [List.length_cons]
            omega
          · simp only [Option.some.injEq, Prod.mk.injEq] at h
            obtain ⟨-, hr⟩ := h
            subst hr
            simp only [List.length_cons]
            omega
        · rename_i heq2
          simp only [Option.some.injEq, Prod.mk.injEq] at h
          obtain ⟨-, hr⟩ := h
          subst hr
          simp only [List.length_cons]
          omega

/-- `MONEY_RE.findall`: leftmost, non-overlapping, returning group 1 of
each match (fuel-structured; `moneyGroupAt_len` shows the remainder
shrinks, so `s.length` fuel suffices). -/
def moneyFindallGo : Nat → Str → List Str
  | 0, _ => []
  | _, [] => []
  | fuel + 1, c :: rest =>
    match moneyGroupAt (c :: rest) with
    | some (g, r) => g :: moneyFindallGo fuel r
    | none => moneyFindallGo fuel rest

def moneyFindall (s : Str) : List Str := moneyFindallGo s.length s

/-- `MONEY_RE.search` as a boolean. -/
def moneySearch (s : Str) : Bool := !(moneyFindall s).isEmpty

/-- `re.search(r"Schedule:\s*([A-Z])", ln)` tried at one position. -/
def schedAt (s : Str) : Option Char :=
  if ("Schedule:".toList).isPrefixOf s then
    match (s.drop 9).dropWhile isSpaceChar with
    | c :: _ => if c.isUpper then some c else none
    | [] => none
  else none

/-- Leftmost `re.search(r"Schedule:\s*([A-Z])", ln)`, returning the captured letter. -/
def schedSearch (s : Str) : Option Char :=
  match s with
  | [] => none
  | c :: rest =>
    match schedAt (c :: rest) with
    | some g => some g
    | none => schedSearch rest

/-- `re.search(r"Option:\s*([A-Z]+)", ln)` tried at one position; the greedy
group captures the maximal run of capital letters. -/
def optAt (s : Str) : Option Str :=
  if ("Option:".toList).isPrefixOf s then
    match (s.drop 7).dropWhile isSpaceChar with
    | c :: rest =>
      if c.isUpper then some (c :: rest.takeWhile Char.isUpper) else none
    | [] => none
  else none

/-- Leftmost `re.search(r"Option:\s*([A-Z]+)", ln)`, returning the capture. -/
def optSearch (s : Str) : Option Str :=
  match s with
  | [] => none
  | c :: rest =>
    match optAt (c :: rest) with
    | some g => some g
    | none => optSearch rest

/-- `re.search(r"\bA\b", ln)`: a standalone capital A. -/
def standaloneAGo (prev : Option Char) (s : Str) : Bool :=
  match s with
  | [] => false
  | c :: rest =>
    (!wordAt prev && c = 'A' && !wordAt rest.head?) || standaloneAGo (some c) rest

def standaloneA (s : Str) : Bool := standaloneAGo none s

/-- `re.search(r"Engineer.?s Estimate", s, flags=re.IGNORECASE)`: the text is
lower-cased and scanned for `engineer`, an optional single non-newline
character, then `s estimate`. -/
def engineerSearchGo (t : Str) : Bool :=
  match t with
  | [] => false
  | _ :: rest =>
    (if ("engineer".toList).isPrefixOf t then
      (("s estimate".toList).isPrefixOf (t.drop 8)) ||
        (match t.drop 8 with
         | x :: r2 => x ≠ '\n' && ("s estimate".toList).isPrefixOf r2
         | [] => false)
     else false) || engineerSearchGo rest

def engineerSearch (s : Str) : Bool := engineerSearchGo (pyLower s)

/-- `\$\s*[0-9][0-9,]*\.[0-9]{2}` matched at one position: returns the
matched text (dollar sign and inner whitespace included) and the remainder.
The decimal point must follow the greedy `[0-9,]*` run directly, so no
backtracking case arises. -/
def m1At (s : Str) : Option (Str × Str) :=
  match s with
  | '$' :: t =>
    match (t.dropWhile isSpaceChar) with
    | d :: u =>
      if !d.isDigit then none
      else
        match u.dropWhile isDigitComma with
        | '.' :: a :: b :: v =>
          if a.isDigit && b.isDigit then
            some ('$' :: t.takeWhile isSpaceChar ++ d :: u.takeWhile isDigitComma ++ ['.', a, b], v)
          else none
        | _ => none
    | [] => none
  | _ => none

/-- `re.search(r"^(.*?)(\$\s*[0-9][0-9,]*\.[0-9]{2})", s)` — the lazy prefix
group stops at the first position where the money pattern matches; returns
(group 1, group 2, remainder after the match). -/
def findMoney1 : Str → Option (Str × Str × Str)
  | [] => none
  | c :: rest =>
    match m1At (c :: rest) with
    | some (g, r) => some ([], g, r)
    | none =>
      match findMoney1 rest with
      | some (a, g, r) => some (c :: a, g, r)
      | none => none

/-- `re.compile(r"^\$\s*[0-9][0-9,]*\.[0-9]{2}$").match(s)`: the whole line
is one currency amount. -/
def amountOnlyFull (s : Str) : Bool :=
  match m1At s with
  | some (_, r) => r.isEmpty
  | none => false

/-- `\$[0-9,]+\.[0-9]{2}` matched at one position (note: unlike `m1At`, no
whitespace after the dollar and the run may start with a comma). -/
def m2At (s : Str) : Option (Str × Str) :=
  match s with
  | '$' :: t =>
    match t.dropWhile isDigitComma with
    | '.' :: a :: b :: v =>
      if !(t.takeWhile isDigitComma).isEmpty && a.isDigit && b.isDigit then
        some ('$' :: t.takeWhile isDigitComma ++ ['.', a, b], v)
      else none
    | _ => none
  | _ => none

/-- Character class of the raw string `r"[\\s,]+"` as Python reads it: a
literal backslash, the letter `s`, and the comma (NOT whitespace — the
doubled backslash in the raw string escapes itself). -/
def isBuggySplitChar (c : Char) : Bool :=
  c = '\\' || c = 's' || c = ','

/-- `re.match(r"^[A-Z]\\d", s)` as Python reads the raw string: a capital
letter followed by a literal backslash and the letter `d`. -/
def schedFallbackMatch (s : Str) : Bool :=
  match s with
  | c :: b :: d :: _ => c.isUpper && b = '\\' && d = 'd'
  | _ => false

/-- `re.search(r"^\\d", name)` as Python reads the raw string: the string
starts with a literal backslash followed by the letter `d`. -/
def startsBackslashD (s : Str) : Bool :=
  match s with
  | a :: b :: _ => a = '\\' && b = 'd'
  | _ => false

/-- Name-character class `[A-Za-z'.,& ]` of the bid-amount flattened-page scan. -/
def isNameClass (c : Char) : Bool :=
  c.isAlpha || c = '\x27' || c = '.' || c = ',' || c = '&' || c = ' '

/-! ### Data model -/

/-- A line-item record as emitted by either extraction strategy
(`parser_v2.py` line-item dicts).  `line_item_no`, `pay_item_no` and
`contractor` are non-`None` strings whenever a record is emitted;
`description` may be Python `None`. -/
structure LineItemRec where
  pdf_page : Nat
  project_name : Option Str
  schedule : Option Str
  option : Option Str
  line_item_no : Str
  pay_item_no : Str
  description : Option Str
  quantity : Option ℚ
  unit : Option Str
  contractor : Str
  unit_price : Option ℚ
  amount : Option ℚ
  is_engineers_estimate : Nat
deriving DecidableEq, Repr

/-- A bid-summary record (`parse_bid_amounts` dicts).  `bid_amount` is
always a number at emission (both emission sites guard on its truthiness). -/
structure BidRec where
  pdf_page : Nat
  project_name : Option Str
  report_date : Option Str
  solicitation_no : Option Str
  schedule : Option Str
  option : Option Str
  contractor : Str
  bid_amount : ℚ
  is_engineers_estimate : Nat
deriving DecidableEq, Repr

/-- One page as the excluded PDF decoder delivers it to the engine: its
plain text and its geometrically detected table grids. -/
structure PageT where
  text : Str
  tables : List (List (List Str))
deriving DecidableEq, Repr

/-- Python `cells[0] or current_line_item`: an empty string falls back. -/
def pyOrStr (s : Str) (o : Option Str) : Option Str := if s.isEmpty then o else some s

/-! ### Table-strategy extractor (`parse_line_items_tables`, `parser_v2.py`) -/

/-- `clean_cell` of the table extractor.  Its three footer-noise
substitutions are written with doubled backslashes in the source's raw
strings, so each pattern requires a literal backslash character in the
cell; on backslash-free cells (the only cells the grids in scope contain)
they are identities and the function is whitespace normalisation applied
before and after them. -/
def clean_cell (s : Str) : Str := normalize_ws (normalize_ws s)

/-- The per-page schedule/option scan shared by both extractors: each line
is searched for `Schedule:\s*([A-Z])` and `Option:\s*([A-Z]+)`; the last
match on the page wins; a page without a tag yields `none`. -/
def pageTagScan (text : Str) : Option Str × Option Str :=
  (splitLines text).foldl
    (fun so ln =>
      let s1 := match schedSearch ln with | some c => some [c] | none => so.1
      let o1 := match optSearch ln with | some u => some u | none => so.2
      (s1, o1))
    (none, none)

/-- `cells = cells + [""] * (8 - len(cells))`. -/
def padCells (cells : List Str) : List Str :=
  if cells.length < 8 then cells ++ List.replicate (8 - cells.length) [] else cells

/-- Header acceptance: `"Line Item" in " ".join(header) and "Pay Item" in ...`. -/
def tableHasHeader (table : List (List Str)) : Bool :=
  match table with
  | [] => false
  | h :: _ =>
    containsSub (joinSpace (h.map normalize_ws)) ("Line Item".toList) &&
      containsSub (joinSpace (h.map normalize_ws)) ("Pay Item".toList)

/-- Signature acceptance for a header-less table: some row of length ≥ 2
whose first two normalised cells fully match `LINE_ITEM_RE` and
`PAY_ITEM_RE`. -/
def rowHasSig (r : List Str) : Bool :=
  match r with
  | c0 :: c1 :: _ => lineItemFull (normalize_ws c0) && payItemFull (normalize_ws c1)
  | _ => false

/-- The schedule of an emitted table row: `schedule or last_schedule`,
else the (dead, see C3) literal-backslash fallback on the line-item code. -/
def schedVal (schedPage lastSched : Option Str) (li : Str) : Option Str :=
  match (match schedPage with | some x => some x | none => lastSched) with
  | some x => some x
  | none => if !li.isEmpty && schedFallbackMatch li then some (li.take 1) else none

/-- The row loop of `parse_line_items_tables`: carry-forward state is
`(current_line_item, current_pay_item, current_desc)`. -/
def tableRowsGo (pageno : Nat) (project schedPage lastSched opt : Option Str) :
    List (List Str) → Option Str × Option Str × Option Str → List LineItemRec
  | [], _ => []
  | row :: rest, cur =>
    let cells := padCells (row.map clean_cell)
    let liO := pyOrStr (cells.getD 0 []) cur.1
    let piO := pyOrStr (cells.getD 1 []) cur.2.1
    let deO := pyOrStr (cells.getD 2 []) cur.2.2
    let contractor := cells.getD 3 []
    let carry : Option Str × Option Str × Option Str :=
      (if (cells.getD 0 []).isEmpty then cur.1 else some (cells.getD 0 []),
        if (cells.getD 1 []).isEmpty then cur.2.1 else some (cells.getD 1 []),
        if (cells.getD 2 []).isEmpty then cur.2.2 else some (cells.getD 2 []))
    match liO, piO with
    | some li, some pi =>
      if contractor.isEmpty then
        tableRowsGo pageno project schedPage lastSched opt rest carry
      else
        let qty := if (cells.getD 4 []).isEmpty then none else qty_to_float (cells.getD 4 [])
        let unit := if (cells.getD 5 []).isEmpty then none else some (cells.getD 5 [])
        let unit_price := if (cells.getD 6 []).isEmpty then none else money_to_float (cells.getD 6 [])
        let amount := if (cells.getD 7 []).isEmpty then none else money_to_float (cells.getD 7 [])
        if amount.isNone && unit_price.isNone then
          tableRowsGo pageno project schedPage lastSched opt rest cur
        else
          { pdf_page := pageno, project_name := project,
            schedule := schedVal schedPage lastSched li, option := opt,
            line_item_no := li, pay_item_no := pi, description := deO, quantity := qty,
            unit := unit, contractor := contractor, unit_price := unit_price,
            amount := amount,
            is_engineers_estimate := if engineerSearch contractor then 1 else 0 } ::
            tableRowsGo pageno project schedPage lastSched opt rest (some li, some pi, deO)
    | _, _ =>
      tableRowsGo pageno project schedPage lastSched opt rest carry

/-- One table of `parse_line_items_tables`: acceptance then the row loop. -/
def tableRecords (pageno : Nat) (project schedPage lastSched opt : Option Str)
    (table : List (List Str)) : List LineItemRec :=
  match table with
  | [] => []
  | h :: rest =>
    if h.isEmpty then []
    else if tableHasHeader (h :: rest) then
      tableRowsGo pageno project schedPage lastSched opt rest (none, none, none)
    else if (h :: rest).any rowHasSig then
      tableRowsGo pageno project schedPage lastSched opt (h :: rest) (none, none, none)
    else []

/-- `parse_line_items_tables` of `parser_v2.py` over the decoded pages:
per page the schedule/option tags are scanned from the page text, the
sticky `last_schedule` is updated, and every table grid is processed. -/
def parse_line_items_tables (pages : List PageT) (project : Option Str) : List LineItemRec :=
  go pages 1 none
where
  go : List PageT → Nat → Option Str → List LineItemRec
    | [], _, _ => []
    | p :: rest, pageno, last =>
      let sched := (pageTagScan p.text).1
      let opt := (pageTagScan p.text).2
      let last' := match sched with | some s => some s | none => last
      (p.tables.map (tableRecords pageno project sched last' opt)).join ++
        go rest (pageno + 1) last'

/-! ### Text-strategy extractor (`parse_line_items_text`, `parser_v2.py`) -/

/-- The fixed unit-code set `UNITS`. -/
def UNITS : List Str :=
  (["LNFT", "SQYD", "CUYD", "TON", "EACH", "LPSM",
    "LF", "SY", "CY", "EA", "LS", "SQFT", "GAL"]).map String.toList

/-- `suffix_tokens` of `parse_line_items_text`. -/
def suffix_tokens : List Str :=
  (["Inc.", "LLC", "Corp.", "Corporation", "Co.,", "Company",
    "Industries", "Const."]).map String.toList

/-- `looks_like_suffix`: some corporate-suffix token occurs in the line. -/
def looks_like_suffix (ln : Str) : Bool :=
  suffix_tokens.any (fun tok => containsSub ln tok)

/-- The hard-coded contractor string `"Engineer's Estimate"`. -/
def engineerName : Str := "Engineer".toList ++ '\x27' :: "s Estimate".toList

/-- `re.split(pat, s)` for a pattern that is one character class repeated
(`[...]+`): split at maximal runs of class characters, keeping empty edge
pieces as `re.split` does. -/
def reSplitRunsGo (p : Char → Bool) : Nat → Str → List Str
  | 0, s => [s.takeWhile (fun c => !p c)]
  | fuel + 1, s =>
    match s.dropWhile (fun c => !p c) with
    | [] => [s.takeWhile (fun c => !p c)]
    | _ :: t => s.takeWhile (fun c => !p c) :: reSplitRunsGo p fuel (t.dropWhile p)

def reSplitRuns (p : Char → Bool) (s : Str) : List Str := reSplitRunsGo p s.length s

/-- The sliding windows `" ".join(parts[i:i+size])` of
`build_contractor_fragments`. -/
def slidingJoins (parts : List Str) (size : Nat) : List Str :=
  if parts.length < size then []
  else (List.range (parts.length - size + 1)).map (fun i => joinSpace ((parts.drop i).take size))

/-- Append elements not already present (ordered stand-in for `set.add`). -/
def dedupAppend (acc : List Str) (xs : List Str) : List Str :=
  xs.foldl (fun a x => if a.contains x then a else a ++ [x]) acc

/-- Insertion into a list kept sorted by decreasing length. -/
def insertByLen (x : Str) : List Str → List Str
  | [] => [x]
  | y :: ys => if y.length < x.length then x :: y :: ys else y :: insertByLen x ys

/-- `sorted(frags, key=len, reverse=True)`.  A Python `set` iterates in an
unspecified order, so the order among equal-length fragments is arbitrary
there; this model fixes insertion order for ties.  Every property stated
about the fragment list is order-insensitive or about lengths only. -/
def sortByLenDesc (l : List Str) : List Str := l.foldl (fun acc x => insertByLen x acc) []

/-- `build_contractor_fragments` of `parse_line_items_text`.  NOTE the
split pattern: the source writes `re.split(r"[\\s,]+", name)`, whose raw
string denotes the character class {backslash, letter s, comma} — not
whitespace (see `isBuggySplitChar`). -/
def build_contractor_fragments (names : List Str) : List Str :=
  let frags := names.foldl
    (fun acc name =>
      if name.isEmpty then acc
      else
        let parts := ((reSplitRuns isBuggySplitChar name).map pyStripSC).filter
          (fun p => !p.isEmpty)
        let wins := (slidingJoins parts 2 ++ slidingJoins parts 3).filter
          (fun f => 6 ≤ f.length)
        dedupAppend acc (name :: wins))
    []
  sortByLenDesc (dedupAppend frags suffix_tokens)

/-- Index of the first occurrence of `pat` in `s`. -/
def findSub (pat : Str) : Str → Option Nat
  | [] => if pat.isEmpty then some 0 else none
  | c :: rest =>
    if pat.isPrefixOf (c :: rest) then some 0
    else (findSub pat rest).map (· + 1)

/-- `re.sub(r"^.*?" + re.escape(pat), "", s)`: remove everything up to and
including the first occurrence of the literal `pat`; unchanged when `pat`
does not occur. -/
def dropThroughFirst (pat s : Str) : Str :=
  match findSub pat s with
  | some i => s.drop (i + pat.length)
  | none => s

/-- `re.sub(r"\s{2,}", " ", s)`: replace each whitespace run of length at
least two by a single space (single whitespace characters are kept as-is). -/
def collapse2Go : Nat → Str → Str
  | 0, _ => []
  | _, [] => []
  | _ + 1, [c] => [c]
  | fuel + 1, c :: d :: rest =>
    if isSpaceChar c then
      if isSpaceChar d then ' ' :: collapse2Go fuel ((d :: rest).dropWhile isSpaceChar)
      else c :: collapse2Go fuel (d :: rest)
    else c :: collapse2Go fuel (d :: rest)

def collapse2 (s : Str) : Str := collapse2Go s.length s

/-- `detect_item_start` of `parse_line_items_text`: the line must contain
both a line-item code and a pay-item code; the candidate description is
what remains after the pay-item code, stripped and space-collapsed. -/
def detect_item_start (ln : Str) : Option (Str × Str × Str) :=
  match lineItemSearch ln, payItemSearch ln with
  | some li, some pi =>
    some (li, pi, pyStrip (collapse2 (pyStrip (dropThroughFirst pi ln))))
  | _, _ => none

/-- The first (quantity-token, unit-token) pair of adjacent tokens, as both
`parse_engineer_line` and the contractor-row scan find it. -/
def qtyUnitScan : List Str → Option ℚ × Option Str
  | t1 :: t2 :: rest =>
    if qtyFull t1 && UNITS.contains t2 then (qty_to_float t1, some t2)
    else qtyUnitScan (t2 :: rest)
  | _ => (none, none)

/-- `parse_engineer_line`. -/
def parse_engineer_line (ln : Str) : Option ℚ × Option Str := qtyUnitScan (splitWs ln)

/-- `re.sub(r"\b" + re.escape(frag) + r"\b", "", s)` for a non-empty
literal `frag` beginning with `f0`: every non-overlapping occurrence of
`frag` at word boundaries on both sides is removed. -/
def subWordBoundGo (f0 : Char) (ftail : Str) : Nat → Option Char → Str → Str
  | 0, _, _ => []
  | _, _, [] => []
  | fuel + 1, prev, c :: rest =>
    if (f0 :: ftail).isPrefixOf (c :: rest) &&
        (wordAt prev != isWordChar f0) &&
        (wordAt (rest.drop ftail.length).head? != isWordChar (ftail.getLastD f0)) then
      subWordBoundGo f0 ftail fuel (some (ftail.getLastD f0)) (rest.drop ftail.length)
    else c :: subWordBoundGo f0 ftail fuel (some c) rest

def subWordBound (frag s : Str) : Str :=
  match frag with
  | [] => s
  | f0 :: ftail => subWordBoundGo f0 ftail s.length none s

/-- One block line of the description rebuild: strip every contractor
fragment at word boundaries, then re-normalise. -/
def cleanFragsLine (frags : List Str) (bl : Str) : Str :=
  normalize_ws (frags.foldl (fun acc frag => subWordBound frag acc) bl)

/-- The description rebuild of `parse_line_items_text`: header-line
remainder plus every block line without a currency amount or engineer
marker, contractor fragments stripped, all joined and normalised. -/
def rebuildDescription (desc0 : Str) (block : List Str) (frags : List Str) : Str :=
  normalize_ws (joinSpace
    ((if desc0.isEmpty then [] else [desc0]) ++
      block.filterMap (fun bl =>
        if bl.contains '$' || engineerSearch bl then none
        else
          let c := cleanFragsLine frags bl
          if c.isEmpty then none else some c)))

/-- Per-block constants of the text-strategy row loop. -/
structure TextCtx where
  pageno : Nat
  project : Option Str
  sched : Option Str
  opt : Option Str
  li : Str
  pi : Str
  descr : Str
  blockQty : Option ℚ
  blockUnit : Option Str
  frags : List Str
deriving Repr

/-- The engineer row of a block: last amount is `amount`, second-to-last
(if any) is `unit_price`. -/
def engineerRow (ctx : TextCtx) (bl : Str) : LineItemRec :=
  let rev := (moneyFindall bl).reverse
  let q2u2 := parse_engineer_line bl
  { pdf_page := ctx.pageno, project_name := ctx.project, schedule := ctx.sched,
    option := ctx.opt, line_item_no := ctx.li, pay_item_no := ctx.pi,
    description := some ctx.descr,
    quantity := match q2u2.1 with | some q => some q | none => ctx.blockQty,
    unit := match q2u2.2 with | some u => some u | none => ctx.blockUnit,
    contractor := engineerName,
    unit_price := match rev with | _ :: m2 :: _ => money_to_float m2 | _ => none,
    amount := match rev with | m1 :: _ => money_to_float m1 | _ => none,
    is_engineers_estimate := 1 }

/-- A contractor row of a block (emitted only when the resolved name is
non-empty). -/
def contractorRow (ctx : TextCtx) (bl name : Str) : Option LineItemRec :=
  if name.isEmpty then none
  else
    let rev := (moneyFindall bl).reverse
    let qu := qtyUnitScan (splitWs bl)
    some
      { pdf_page := ctx.pageno, project_name := ctx.project, schedule := ctx.sched,
        option := ctx.opt, line_item_no := ctx.li, pay_item_no := ctx.pi,
        description := some ctx.descr,
        quantity := match qu.1 with | some q => some q | none => ctx.blockQty,
        unit := match qu.2 with | some u => some u | none => ctx.blockUnit,
        contractor := name,
        unit_price := match rev with | _ :: m2 :: _ => money_to_float m2 | _ => none,
        amount := match rev with | m1 :: _ => money_to_float m1 | _ => none,
        is_engineers_estimate := 0 }

/-- The row loop over a block's lines with the buffered wrapped-name
fragments (`name_parts`): engineer lines emit directly; lines with money
emit a contractor row (consuming a following suffix-only line); other
lines are buffered as name fragments when they match a known fragment or
suffix token. -/
def blockRows (ctx : TextCtx) : Nat → List Str → List Str → List LineItemRec
  | 0, _, _ => []
  | _, [], _ => []
  | fuel + 1, bl :: rest, nameParts =>
    if engineerSearch bl then
      engineerRow ctx bl :: blockRows ctx fuel rest nameParts
    else if !(moneyFindall bl).isEmpty then
      let pre := pyStripSC (bl.takeWhile (fun c => c ≠ '$'))
      let name0 := if !pre.isEmpty then pre else pyStripSC (joinSpace nameParts)
      match rest with
      | r1 :: rest2 =>
        if !moneySearch r1 && looks_like_suffix r1 then
          (contractorRow ctx bl (pyStripSC (name0 ++ ' ' :: r1))).toList ++
            blockRows ctx fuel rest2 []
        else (contractorRow ctx bl name0).toList ++ blockRows ctx fuel (r1 :: rest2) []
      | [] => (contractorRow ctx bl name0).toList
    else
      blockRows ctx fuel rest
        (if !bl.isEmpty &&
            !(["schedule:", "line item", "pay item"].map String.toList).any
              (fun p => p.isPrefixOf (pyLower bl)) &&
            (ctx.frags.any (fun f => containsSub bl f) || looks_like_suffix bl) then
          nameParts ++ [bl]
        else nameParts)

/-- Block segmentation: a line containing both codes opens an item; the
following lines up to the next such line form its block. -/
def segsTextGo : Nat → List Str → List ((Str × Str × Str) × List Str)
  | 0, _ => []
  | _, [] => []
  | fuel + 1, ln :: rest =>
    match detect_item_start ln with
    | none => segsTextGo fuel rest
    | some h =>
      (h, rest.takeWhile (fun l => (detect_item_start l).isNone)) ::
        segsTextGo fuel (rest.dropWhile (fun l => (detect_item_start l).isNone))

def segsText (lines : List Str) : List ((Str × Str × Str) × List Str) :=
  segsTextGo lines.length lines

/-- One block of `parse_line_items_text`: reference quantity/unit from the
first engineer line, description rebuild, then the row loop. -/
def parseBlock (pageno : Nat) (project : Option Str) (sched opt : Option Str)
    (frags : List Str) (h : Str × Str × Str) (block : List Str) : List LineItemRec :=
  let qu :=
    match block.find? (fun bl => engineerSearch bl) with
    | some bl => parse_engineer_line bl
    | none => (none, none)
  blockRows
    { pageno := pageno, project := project, sched := sched, opt := opt,
      li := h.1, pi := h.2.1, descr := rebuildDescription h.2.2 block frags,
      blockQty := qu.1, blockUnit := qu.2, frags := frags }
    block.length block []

/-- The schedule/option scan of a list of (already normalised) lines: last
tag wins; no carry-in from previous pages. -/
def linesTagScan (lines : List Str) : Option Str × Option Str :=
  lines.foldl
    (fun so ln =>
      (match schedSearch ln with | some c => some [c] | none => so.1,
        match optSearch ln with | some u => some u | none => so.2))
    (none, none)

/-- One page of `parse_line_items_text`: lines are normalised and filtered
non-empty, the page's own schedule/option tags are scanned (no value is
carried over from previous pages), and each block is parsed. -/
def pageTextRecords (pageno : Nat) (project : Option Str) (frags : List Str)
    (page : Str) : List LineItemRec :=
  let lines := ((splitLines page).map normalize_ws).filter (fun l => !l.isEmpty)
  let so := linesTagScan lines
  ((segsText lines).map (fun seg => parseBlock pageno project so.1 so.2 frags seg.1 seg.2)).join

/-- `parse_line_items_text` of `parser_v2.py`. -/
def parse_line_items_text (pages : List Str) (project : Option Str)
    (contractors : List Str) : List LineItemRec :=
  go pages 1
where
  go : List Str → Nat → List LineItemRec
    | [], _ => []
    | p :: rest, pageno =>
      pageTextRecords pageno project (build_contractor_fragments contractors) p ++
        go rest (pageno + 1)

/-! ### Bid-summary extractor (`parse_bid_amounts`, `parser_v2.py`) -/

/-- Document metadata fields a bid-summary record carries. -/
structure BidMeta where
  project : Option Str
  report_date : Option Str
  solicitation_no : Option Str
deriving DecidableEq, Repr

/-- The `suffixes` list local to `parse_bid_amounts`. -/
def bidSuffixes : List Str :=
  (["Corp.", "Inc.", "LLC", "Co., LLC", "Industries, Inc."]).map String.toList

/-- `re.search(r"^(" + suffix_re + r")$", ln)`: the whole line equals one
of the suffixes. -/
def suffixFullLine (ln : Str) : Bool := bidSuffixes.any (fun sfx => ln = sfx)

theorem m2At_len {s g r : Str} (h : m2At s = some (g, r)) : r.length < s.length := by
  unfold m2At at h
  split at h
  case h_2 => exact absurd h (by simp)
  case h_1 t =>
    have hd : (t.dropWhile isDigitComma).length ≤ t.length := dropWhile_len_le _ t
    split at h
    case h_2 => exact absurd h (by simp)
    case h_1 a b v heq =>
      rw [heq] at hd
      simp only [List.length_cons] at hd
      split at h
      · simp only [Option.some.injEq, Prod.mk.injEq] at h
        obtain ⟨-, hr⟩ := h
        subst hr
        simp only [List.length_cons]
        omega
      · exact absurd h (by simp)

/-- `re.sub(r"(\$[0-9,]+\.[0-9]{2})([A-Za-z])", r"\1 \2", page_norm)`: a
space is inserted between a two-decimal currency amount and a directly
following letter. -/
def insSpaceSubGo : Nat → Str → Str
  | 0, _ => []
  | _, [] => []
  | fuel + 1, c :: t =>
    match m2At (c :: t) with
    | some (g, r) =>
      match r with
      | l1 :: r2 =>
        if l1.isAlpha then g ++ ' ' :: l1 :: insSpaceSubGo fuel r2
        else c :: insSpaceSubGo fuel t
      | [] => c :: insSpaceSubGo fuel t
    | none => c :: insSpaceSubGo fuel t

def insSpaceSub (s : Str) : Str := insSpaceSubGo s.length s

/-- One attempt of the flattened-page `finditer` pattern
`([A-Za-z'.,& ]{3,})\s*(\$[0-9,]+\.[0-9]{2})\s*(suffix-alternation)?` at the
current position: the greedy name class includes the space, so a match
starting here requires the maximal name-class run (≥ 3 characters) to be
followed directly by the currency pattern; the optional suffix alternation
is tried left to right after the greedily consumed whitespace.  Returns
(group 1, group 2, group 3, remainder after the match). -/
def finditerAt (s : Str) : Option (Str × Str × Option Str × Str) :=
  if (s.takeWhile isNameClass).length < 3 then none
  else
    match m2At (s.dropWhile isNameClass) with
    | some (g2, r) =>
      match bidSuffixes.find? (fun sfx => sfx.isPrefixOf (r.dropWhile isSpaceChar)) with
      | some sfx =>
        some (s.takeWhile isNameClass, g2, some sfx, (r.dropWhile isSpaceChar).drop sfx.length)
      | none => some (s.takeWhile isNameClass, g2, none, r.dropWhile isSpaceChar)
    | none => none

theorem finditerAt_len {s g1 g2 r : Str} {g3 : Option Str}
    (h : finditerAt s = some (g1, g2, g3, r)) : r.length < s.length := by
  unfold finditerAt at h
  split at h
  · exact absurd h (by simp)
  · rename_i hrun
    have hd : (s.dropWhile isNameClass).length ≤ s.length := dropWhile_len_le _ s
    have htk : (s.takeWhile isNameClass).length + (s.dropWhile isNameClass).length = s.length := by
      rw [← List.length_append, List.takeWhile_append_dropWhile]
    split at h
    case h_2 => exact absurd h (by simp)
    case h_1 gg rr heq =>
      have hm2 : rr.length < (s.dropWhile isNameClass).length := m2At_len heq
      have hws : (rr.dropWhile isSpaceChar).length ≤ rr.length := dropWhile_len_le _ rr
      split at h
      · rename_i sfx hfind
        simp only [Option.some.injEq, Prod.mk.injEq] at h
        obtain ⟨-, -, -, hr⟩ := h
        subst hr
        have hdrop : ((rr.dropWhile isSpaceChar).drop sfx.length).length ≤
            (rr.dropWhile isSpaceChar).length := by
          rw [List.length_drop]
          omega
        omega
      · simp only [Option.some.injEq, Prod.mk.injEq] at h
        obtain ⟨-, -, -, hr⟩ := h
        subst hr
        omega

/-- The non-overlapping `finditer` scan over the flattened page: the
leftmost position where the pattern matches starts a match; scanning
resumes after the matched text. -/
def scanBidsGo : Nat → Str → List (Str × Str × Option Str)
  | 0, _ => []
  | _, [] => []
  | fuel + 1, c :: rest =>
    match finditerAt (c :: rest) with
    | some (g1, g2, g3, r) => (g1, g2, g3) :: scanBidsGo fuel r
    | none => scanBidsGo fuel rest

def scanBids (s : Str) : List (Str × Str × Option Str) := scanBidsGo s.length s

/-- The candidate of the line-wise pass of `parse_bid_amounts` for the
current line with its two successor lines: a line containing `$` yields
`group1 + " " + money + (" " + rest)` when the pre-money prefix is
non-blank; a line without `$` followed by an amount-only line (and
possibly a suffix-only line) is reassembled from those. -/
def pass1Candidate (ln : Str) (n1 n2 : Option Str) : Option Str :=
  if ln.contains '$' then
    match findMoney1 ln with
    | some (g1, g2, g3raw) =>
      if (pyStrip g1).isEmpty then none
      else
        some (pyStrip (g1 ++ ' ' :: g2 ++
          (if (pyStrip g3raw).isEmpty then [] else ' ' :: pyStrip g3raw)))
    | none => none
  else
    match n1 with
    | some l1 =>
      if amountOnlyFull l1 then
        some (pyStrip (ln ++ ' ' :: l1 ++ ' ' ::
          (match n2 with
           | some l2 => if suffixFullLine l2 then l2 else []
           | none => [])))
      else none
    | none => none

/-- Candidate → record of the line-wise pass: the name is everything
before the first currency amount; the amount must be truthy (non-`None`
and non-zero); non-engineer names must be ≥ 3 characters and not match
`r"^\\d"` (which, as Python reads the raw string, is a literal backslash
followed by `d`). -/
def mkBid1 (pageno : Nat) (meta : BidMeta) (sched opt : Option Str) (cand : Str) :
    Option BidRec :=
  match findMoney1 cand with
  | some (g1, g2, _) =>
    let name := pyStripSC g1
    match money_to_float g2 with
    | some a =>
      if a = 0 then none
      else if engineerSearch name then
        some { pdf_page := pageno, project_name := meta.project,
               report_date := meta.report_date, solicitation_no := meta.solicitation_no,
               schedule := sched, option := opt, contractor := engineerName,
               bid_amount := a, is_engineers_estimate := 1 }
      else if 3 ≤ name.length && !startsBackslashD name then
        some { pdf_page := pageno, project_name := meta.project,
               report_date := meta.report_date, solicitation_no := meta.solicitation_no,
               schedule := sched, option := opt, contractor := name,
               bid_amount := a, is_engineers_estimate := 0 }
      else none
    | none => none
  | none => none

/-- Each line paired with its two successors (`lines[idx+1]`, `lines[idx+2]`). -/
def win3 : List Str → List (Str × Option Str × Option Str)
  | [] => []
  | a :: rest => (a, rest.head?, (rest.drop 1).head?) :: win3 rest

/-- The line-wise pass of `parse_bid_amounts` (the `while idx < len(lines)`
loop, which advances by exactly one line per iteration and emits at most
one record per iteration). -/
def pass1Bids (pageno : Nat) (meta : BidMeta) (sched opt : Option Str)
    (lines : List Str) : List BidRec :=
  (win3 lines).filterMap (fun w =>
    match pass1Candidate w.1 w.2.1 w.2.2 with
    | some cand => mkBid1 pageno meta sched opt cand
    | none => none)

/-- Flattened-page match → record of the second pass. -/
def mkBid2 (pageno : Nat) (meta : BidMeta) (sched opt : Option Str)
    (m : Str × Str × Option Str) : Option BidRec :=
  let name := pyStripSC (m.1 ++ (match m.2.2 with | some sfx => ' ' :: sfx | none => []))
  match money_to_float m.2.1 with
  | some a =>
    if a = 0 || name.length < 3 then none
    else if engineerSearch name then
      some { pdf_page := pageno, project_name := meta.project,
             report_date := meta.report_date, solicitation_no := meta.solicitation_no,
             schedule := sched, option := opt, contractor := engineerName,
             bid_amount := a, is_engineers_estimate := 1 }
    else if containsSub name ("Estimate".toList) then none
    else
      some { pdf_page := pageno, project_name := meta.project,
             report_date := meta.report_date, solicitation_no := meta.solicitation_no,
             schedule := sched, option := opt, contractor := name,
             bid_amount := a, is_engineers_estimate := 0 }
  | none => none

/-- The context scan of `parse_bid_amounts`: per line, in order, the
`Schedule:` tag, the `Option:` tag, and the `Base Schedule` + standalone-A
heading (which overrides the schedule). -/
def bidPageTags (lines : List Str) : Option Str × Option Str :=
  lines.foldl
    (fun so ln =>
      let s1 := match schedSearch ln with | some c => some [c] | none => so.1
      let o1 := match optSearch ln with | some u => some u | none => so.2
      (if containsSub ln ("Base Schedule".toList) && standaloneA ln then some ['A'] else s1,
        o1))
    (none, none)

/-- One page of `parse_bid_amounts`: pages mentioning line items are
skipped; only summary pages are parsed; then the line-wise pass and the
flattened-page pass run in order. -/
def pageBids (pageno : Nat) (meta : BidMeta) (page : Str) : List BidRec :=
  let lines := ((splitLines page).map normalize_ws).filter (fun l => !l.isEmpty)
  let so := bidPageTags lines
  if containsSub page ("Line Item".toList) || containsSub page ("LineItem".toList) ||
      containsSub page ("Pay Item No.".toList) then []
  else if !(containsSub page ("Contractor Responsive?".toList) ||
      containsSub page ("Total Base Schedule".toList) || (optSearch page).isSome) then []
  else
    pass1Bids pageno meta so.1 so.2 lines ++
      (scanBids (insSpaceSub (replaceChar '\n' ' ' page))).filterMap
        (mkBid2 pageno meta so.1 so.2)

/-- The deduplication key `(project_name, schedule, option, contractor, bid_amount)`. -/
def bidKey (r : BidRec) : Option Str × Option Str × Option Str × Str × ℚ :=
  (r.project_name, r.schedule, r.option, r.contractor, r.bid_amount)

/-- The final deduplication loop of `parse_bid_amounts`: first-seen rows
are kept in order, later rows with an already-seen key are dropped. -/
def dedupBidsGo : List BidRec → List (Option Str × Option Str × Option Str × Str × ℚ) →
    List BidRec
  | [], _ => []
  | r :: rest, seen =>
    if seen.any (fun k => decide (k = bidKey r)) then dedupBidsGo rest seen
    else r :: dedupBidsGo rest (bidKey r :: seen)

/-- `parse_bid_amounts` of `parser_v2.py` over the decoded page texts. -/
def parse_bid_amounts (pages : List Str) (meta : BidMeta) : List BidRec :=
  dedupBidsGo (go pages 1) []
where
  go : List Str → Nat → List BidRec
    | [], _ => []
    | p :: rest, pageno => pageBids pageno meta p ++ go rest (pageno + 1)

/-! ### Reconciler (`_merge_qty_unit_from_text` and `parse_pdf`, `parser_v1.py`;
`parse_pdf`, `parser_v2.py`) -/

/-- The reconciliation key `(schedule, line_item_no, pay_item_no, contractor)`. -/
def itemKey (r : LineItemRec) : Option Str × Str × Str × Str :=
  (r.schedule, r.line_item_no, r.pay_item_no, r.contractor)

/-- The index build `for it in items_text: index[key] = it` followed by a
lookup: a later record with the same key overwrites an earlier one. -/
def mergeIndexLookup (xs : List LineItemRec) (k : Option Str × Str × Str × Str) :
    Option LineItemRec :=
  xs.foldl (fun acc it => if itemKey it = k then some it else acc) none

/-- The per-record back-fill of `_merge_qty_unit_from_text`: a table record
missing quantity or unit receives the missing field(s) from the indexed
text record with its key, when one exists. -/
def backfillQtyUnit (xs : List LineItemRec) (it : LineItemRec) : LineItemRec :=
  if it.quantity.isNone || it.unit.isNone then
    match mergeIndexLookup xs (itemKey it) with
    | some src =>
      { it with
        quantity := if it.quantity.isNone then src.quantity else it.quantity,
        unit := if it.unit.isNone then src.unit else it.unit }
    | none => it
  else it

/-- `_merge_qty_unit_from_text` of `parser_v1.py`. -/
def merge_qty_unit_from_text (items_table items_text : List LineItemRec) :
    List LineItemRec :=
  items_table.map (backfillQtyUnit items_text)

/-- The line-item reconciliation of `parse_pdf` in `parser_v1.py`:
`if items: items = _merge_qty_unit_from_text(items, items_text)
else: items = items_text`. -/
def reconcile_v1 (items items_text : List LineItemRec) : List LineItemRec :=
  if items.isEmpty then items_text else merge_qty_unit_from_text items items_text

/-- The line-item reconciliation of `parse_pdf` in `parser_v2.py`:
`items = parse_line_items_tables(...); if not items: items =
parse_line_items_text(...)` — no back-fill is performed. -/
def reconcile_v2 (items items_text : List LineItemRec) : List LineItemRec :=
  if items.isEmpty then items_text else items

/-- Every field of a line-item record except quantity and unit. -/
def nonQtyUnit (r : LineItemRec) :=
  (r.pdf_page, r.project_name, r.schedule, r.option, r.line_item_no, r.pay_item_no,
    r.description, r.contractor, r.unit_price, r.amount, r.is_engineers_estimate)

/-! ### Claims -/

/-- C7: the token parsers are total on strings (their type is
`Str → Option ℚ`; no exception path exists) and agree with the reference
values: `$12,345.67` parses to `12345.67`, `$0.00` to `0.0`, a non-numeric
remainder gives an absent value rather than an error; `3,890` parses to
`3890.0` and `11,000.000` to `11000.0`, with absent on malformed input. -/
theorem C7_token_parsers :
    money_to_float ("$12,345.67".toList) = some (mkRat 1234567 100) ∧
    money_to_float ("$0.00".toList) = some 0 ∧
    money_to_float ("$N/A".toList) = none ∧
    money_to_float ("".toList) = none ∧
    qty_to_float ("3,890".toList) = some 3890 ∧
    qty_to_float ("11,000.000".toList) = some 11000 ∧
    qty_to_float ("12ab".toList) = none := by
  decide

/-- The C6 grid: a row carrying the codes and description with an empty
contractor cell, followed by a continuation row carrying the contractor
and numbers only. -/
def c6row1 : List Str :=
  (["A0200", "15101-0000", "MOBILIZATION", "", "", "", "", ""]).map String.toList

def c6row2 : List Str :=
  (["", "", "", "Acme Corp.", "500", "CUYD", "100.00", "50000.00"]).map String.toList

def c6page : PageT := { text := [], tables := [[c6row1, c6row2]] }

/-- C6: on the two-row grid above the table-strategy extractor emits
exactly one record — the first row emits none — and that record inherits
line_item_no `A0200`, pay_item_no `15101-0000` and description
`MOBILIZATION` from the first row by carry-forward. -/
theorem C6_carry_forward :
    parse_line_items_tables [c6page] none =
      [{ pdf_page := 1, project_name := none, schedule := none, option := none,
         line_item_no := "A0200".toList, pay_item_no := "15101-0000".toList,
         description := some ("MOBILIZATION".toList), quantity := some 500,
         unit := some ("CUYD".toList), contractor := "Acme Corp.".toList,
         unit_price := some 100, amount := some 50000,
         is_engineers_estimate := 0 }] := by
  decide

/-- The C3 grid: a complete row with line-item code `A0200` on a document
without any schedule tag. -/
def c3page : PageT :=
  { text := [],
    tables := [[(["A0200", "15101-0000", "MOBILIZATION", "Acme Corp.",
      "500", "CUYD", "100.00", "50000.00"]).map String.toList]] }

/-- C3: the claimed fallback (schedule from the first character of the
line-item code) never fires.  The source tests the code with
`re.match(r"^[A-Z]\\d", ...)`, whose raw string denotes a capital letter
followed by a LITERAL BACKSLASH and `d`; `A0200` does not match it (while
it does fully match the correctly written `LINE_ITEM_RE`), so the emitted
record's schedule is absent, not `A`. -/
theorem C3_schedule_fallback_dead :
    (parse_line_items_tables [c3page] none).map (fun r => (r.line_item_no, r.schedule)) =
      [("A0200".toList, none)] ∧
    schedFallbackMatch ("A0200".toList) = false ∧
    lineItemFull ("A0200".toList) = true := by
  decide

/-- Pairwise check that a fragment list is ordered by non-increasing length. -/
def isSortedLenDesc : List Str → Bool
  | [] => true
  | [_] => true
  | a :: b :: rest => (decide (b.length ≤ a.length)) && isSortedLenDesc (b :: rest)

/-- C8: the fragment dictionary is NOT built from whitespace/comma word
splits.  The split pattern `re.split(r"[\\s,]+", name)` denotes the
character class {backslash, `s`, comma}, so `Acme Construction Corp.` is
split at its letter `s` into `Acme Con` and `truction Corp.`; the claimed
2-word window `Acme Construction` is absent from the dictionary while the
garbled `Acme Con truction Corp.` is present (the full name, the suffix
tokens, and the longest-first ordering are as claimed). -/
theorem C8_fragments_bug :
    reSplitRuns isBuggySplitChar ("Acme Construction Corp.".toList) =
      ["Acme Con".toList, "truction Corp.".toList] ∧
    ((build_contractor_fragments ["Acme Construction Corp.".toList]).any
      (fun f => decide (f = "Acme Construction".toList)) = false) ∧
    ((build_contractor_fragments ["Acme Construction Corp.".toList]).any
      (fun f => decide (f = "Acme Con truction Corp.".toList)) = true) ∧
    ((build_contractor_fragments ["Acme Construction Corp.".toList]).any
      (fun f => decide (f = "Acme Construction Corp.".toList)) = true) ∧
    isSortedLenDesc (build_contractor_fragments ["Acme Construction Corp.".toList]) = true := by
  decide

/-! ### Deduplication lemmas (C4) -/

theorem dedupBidsGo_mem_spec :
    ∀ (rows : List BidRec) (seen : List (Option Str × Option Str × Option Str × Str × ℚ))
      (s : BidRec), s ∈ dedupBidsGo rows seen →
      bidKey s ∉ seen ∧ rows.find? (fun x => decide (bidKey x = bidKey s)) = some s := by
  intro rows
  induction rows with
  | nil => intro seen s hs; simp [dedupBidsGo] at hs
  | cons r rest ih =>
    intro seen s hs
    simp only [dedupBidsGo] at hs
    by_cases hmem : (seen.any (fun k => decide (k = bidKey r))) = true
    · rw [if_pos hmem] at hs
      obtain ⟨hnot, hfind⟩ := ih seen s hs
      refine ⟨hnot, ?_⟩
      have hne : bidKey r ≠ bidKey s := by
        intro he
        rw [List.any_eq_true] at hmem
        obtain ⟨k, hk, hkeq⟩ := hmem
        rw [decide_eq_true_eq] at hkeq
        subst hkeq
        rw [he] at hk
        exact hnot hk
      rw [List.find?_cons_of_neg _ (by simpa using hne)]
      exact hfind
    · rw [if_neg hmem] at hs
      rcases List.mem_cons.mp hs with he | hs'
      · subst he
        constructor
        · intro hin
          exact hmem (List.any_eq_true.mpr ⟨bidKey s, hin, by simp⟩)
        · exact List.find?_cons_of_pos _ (by simp)
      · obtain ⟨hnot, hfind⟩ := ih _ s hs'
        have hne : bidKey r ≠ bidKey s := by
          intro he
          exact hnot (by rw [← he]; exact List.mem_cons_self _ _)
        constructor
        · intro hin
          exact hnot (List.mem_cons_of_mem _ hin)
        · rw [List.find?_cons_of_neg _ (by simpa using hne)]
          exact hfind

theorem dedupBidsGo_nodup :
    ∀ (rows : List BidRec) (seen : List (Option Str × Option Str × Option Str × Str × ℚ)),
      ((dedupBidsGo rows seen).map bidKey).Nodup := by
  intro rows
  induction rows with
  | nil => intro seen; simp [dedupBidsGo]
  | cons r rest ih =>
    intro seen
    simp only [dedupBidsGo]
    split
    · exact ih seen
    · simp only [List.map_cons, List.nodup_cons]
      refine ⟨?_, ih _⟩
      intro hin
      rw [List.mem_map] at hin
      obtain ⟨s, hs, hkey⟩ := hin
      have := (dedupBidsGo_mem_spec rest (bidKey r :: seen) s hs).1
      exact this (by rw [hkey]; exact List.mem_cons_self _ _)

theorem dedupBidsGo_sublist :
    ∀ (rows : List BidRec) (seen : List (Option Str × Option Str × Option Str × Str × ℚ)),
      List.Sublist (dedupBidsGo rows seen) rows := by
  intro rows
  induction rows with
  | nil => intro seen; simp [dedupBidsGo]
  | cons r rest ih =>
    intro seen
    simp only [dedupBidsGo]
    split
    · exact List.Sublist.cons r (ih seen)
    · exact List.Sublist.cons₂ r (ih _)

theorem dedupBidsGo_covers :
    ∀ (rows : List BidRec) (seen : List (Option Str × Option Str × Option Str × Str × ℚ))
      (r : BidRec), r ∈ rows →
      bidKey r ∈ seen ∨ ∃ s ∈ dedupBidsGo rows seen, bidKey s = bidKey r := by
  intro rows
  induction rows with
  | nil => intro seen r hr; simp at hr
  | cons a rest ih =>
    intro seen r hr
    simp only [dedupBidsGo]
    by_cases hmem : (seen.any (fun k => decide (k = bidKey a))) = true
    · rw [if_pos hmem]
      rcases List.mem_cons.mp hr with rfl | hr'
      · left
        rw [List.any_eq_true] at hmem
        obtain ⟨k, hk, hkeq⟩ := hmem
        rw [decide_eq_true_eq] at hkeq
        exact hkeq ▸ hk
      · exact ih seen r hr'
    · rw [if_neg hmem]
      rcases List.mem_cons.mp hr with rfl | hr'
      · right
        exact ⟨r, List.mem_cons_self _ _, rfl⟩
      · rcases ih (bidKey a :: seen) r hr' with hseen | ⟨s, hs, hkey⟩
        · rcases List.mem_cons.mp hseen with he | hseen'
          · right
            exact ⟨a, List.mem_cons_self _ _, he.symm⟩
          · left
            exact hseen'
        · right
          exact ⟨s, List.mem_cons_of_mem _ hs, hkey⟩

/-- C4: per document, the bid-summary output is the candidate rows
deduplicated by (project_name, schedule, option, contractor, bid_amount):
output keys are pairwise distinct, output order is a subsequence of
candidate (first-seen) order, every surviving record is the first
candidate with its key (later identical rows are dropped silently — the
function is total, no error path), and every candidate key survives; the
key omits pdf_page, so the page number never prevents a collapse. -/
theorem C4_bid_dedup (pages : List Str) (meta : BidMeta) :
    parse_bid_amounts pages meta = dedupBidsGo (parse_bid_amounts.go meta pages 1) [] ∧
    ((parse_bid_amounts pages meta).map bidKey).Nodup ∧
    List.Sublist (parse_bid_amounts pages meta) (parse_bid_amounts.go meta pages 1) ∧
    (∀ s ∈ parse_bid_amounts pages meta,
      (parse_bid_amounts.go meta pages 1).find?
        (fun x => decide (bidKey x = bidKey s)) = some s) ∧
    (∀ r ∈ parse_bid_amounts.go meta pages 1,
      ∃ s ∈ parse_bid_amounts pages meta, bidKey s = bidKey r) := by
  have heq : parse_bid_amounts pages meta =
      dedupBidsGo (parse_bid_amounts.go meta pages 1) [] := rfl
  refine ⟨heq, ?_, ?_, ?_, ?_⟩
  · rw [heq]
    exact dedupBidsGo_nodup _ _
  · rw [heq]
    exact dedupBidsGo_sublist _ _
  · intro s hs
    rw [heq] at hs
    exact (dedupBidsGo_mem_spec _ _ s hs).2
  · intro r hr
    rcases dedupBidsGo_covers (parse_bid_amounts.go meta pages 1) [] r hr with h | h
    · simp at h
    · rw [heq]
      exact h

/-! ### Merge-index lemmas (C9, C1) -/

theorem mergeIndexLookup_eq_reverse_find (xs : List LineItemRec)
    (k : Option Str × Str × Str × Str) :
    mergeIndexLookup xs k = xs.reverse.find? (fun it => decide (itemKey it = k)) := by
  have main : ∀ (ys : List LineItemRec) (a : Option LineItemRec),
      ys.foldl (fun acc it => if itemKey it = k then some it else acc) a =
        (ys.reverse.find? (fun it => decide (itemKey it = k))).or a := by
    intro ys
    induction ys with
    | nil => intro a; simp
    | cons y ys ih =>
      intro a
      simp only [List.foldl_cons, List.reverse_cons, List.find?_append, ih]
      cases hf : ys.reverse.find? (fun it => decide (itemKey it = k)) with
      | some z => simp
      | none =>
        by_cases hy : itemKey y = k
        · simp [List.find?, hy]
        · simp [List.find?, hy]
  have := main xs none
  simpa [mergeIndexLookup] using this

theorem backfill_nonQtyUnit (xs : List LineItemRec) (r : LineItemRec) :
    nonQtyUnit (backfillQtyUnit xs r) = nonQtyUnit r := by
  unfold backfillQtyUnit
  split
  · cases mergeIndexLookup xs (itemKey r) with
    | some src => rfl
    | none => rfl
  · rfl

theorem backfill_qty_preserved (xs : List LineItemRec) (r : LineItemRec) (q : ℚ)
    (hq : r.quantity = some q) : (backfillQtyUnit xs r).quantity = some q := by
  unfold backfillQtyUnit
  split
  · cases mergeIndexLookup xs (itemKey r) with
    | some src => simp [hq]
    | none => exact hq
  · exact hq

theorem backfill_unit_preserved (xs : List LineItemRec) (r : LineItemRec) (u : Str)
    (hu : r.unit = some u) : (backfillQtyUnit xs r).unit = some u := by
  unfold backfillQtyUnit
  split
  · cases mergeIndexLookup xs (itemKey r) with
    | some src => simp [hu]
    | none => exact hu
  · exact hu

theorem backfill_no_match (xs : List LineItemRec) (r : LineItemRec)
    (h : ∀ s ∈ xs, itemKey s ≠ itemKey r) : backfillQtyUnit xs r = r := by
  unfold backfillQtyUnit
  split
  · cases hf : mergeIndexLookup xs (itemKey r) with
    | some src =>
      exfalso
      rw [mergeIndexLookup_eq_reverse_find] at hf
      have hmem : src ∈ xs := List.mem_reverse.mp (List.mem_of_find?_eq_some hf)
      have hkey : itemKey src = itemKey r := by
        have := List.find?_some hf
        simpa using this
      exact h src hmem hkey
    | none => rfl
  · rfl

theorem backfill_from_last (xs : List LineItemRec) (r s : LineItemRec)
    (hfind : xs.reverse.find? (fun it => decide (itemKey it = itemKey r)) = some s) :
    mergeIndexLookup xs (itemKey r) = some s ∧ s ∈ xs ∧ itemKey s = itemKey r ∧
    (r.quantity = none → (backfillQtyUnit xs r).quantity = s.quantity) ∧
    (r.unit = none → (backfillQtyUnit xs r).unit = s.unit) := by
  have hlk : mergeIndexLookup xs (itemKey r) = some s := by
    rw [mergeIndexLookup_eq_reverse_find, hfind]
  have hmem : s ∈ xs := List.mem_reverse.mp (List.mem_of_find?_eq_some hfind)
  have hkey : itemKey s = itemKey r := by
    have := List.find?_some hfind
    simpa using this
  refine ⟨hlk, hmem, hkey, ?_, ?_⟩
  · intro hq
    unfold backfillQtyUnit
    rw [if_pos (by simp [hq]), hlk]
    simp [hq]
  · intro hu
    unfold backfillQtyUnit
    rw [if_pos (by simp [hu]), hlk]
    simp [hu]

/-- The concrete C4 document: one summary page whose contractor line is
found by both the line-wise and the flattened-page pass, producing two
identical candidate rows with the same key. -/
def c4meta : BidMeta := { project := none, report_date := none, solicitation_no := none }

def c4pages : List Str := ["Contractor Responsive?\nAcme Builders Co. $100.00".toList]

def c4rec : BidRec :=
  { pdf_page := 1, project_name := none, report_date := none, solicitation_no := none,
    schedule := none, option := none, contractor := "Acme Builders Co.".toList,
    bid_amount := 100, is_engineers_estimate := 0 }

theorem C4_bid_dedup_witness :
    parse_bid_amounts.go c4meta c4pages 1 = [c4rec, c4rec] ∧
    parse_bid_amounts c4pages c4meta = [c4rec] ∧
    (parse_bid_amounts.go c4meta c4pages 1).find?
      (fun x => decide (bidKey x = bidKey c4rec)) = some c4rec := by
  refine ⟨by decide, by decide, ?_⟩
  exact (C4_bid_dedup c4pages c4meta).2.2.2.1 c4rec
    (by rw [show parse_bid_amounts c4pages c4meta = [c4rec] from by decide]
        exact List.mem_singleton.mpr rfl)

/-- Table record missing quantity and unit, sharing its reconciliation key
with the text records below. -/
def c1r : LineItemRec :=
  { pdf_page := 2, project_name := none, schedule := some ['A'], option := none,
    line_item_no := "A0200".toList, pay_item_no := "15101-0000".toList,
    description := some ("MOBILIZATION".toList), quantity := none, unit := none,
    contractor := "Acme Corp.".toList, unit_price := some 100, amount := some 50000,
    is_engineers_estimate := 0 }

/-- Text record with the same key supplying quantity 500 / unit CUYD. -/
def c1s : LineItemRec :=
  { pdf_page := 5, project_name := none, schedule := some ['A'], option := none,
    line_item_no := "A0200".toList, pay_item_no := "15101-0000".toList,
    description := some [], quantity := some 500, unit := some ("CUYD".toList),
    contractor := "Acme Corp.".toList, unit_price := some 100, amount := some 50000,
    is_engineers_estimate := 0 }

/-- The concrete C1 document: its one table row has empty quantity and
unit cells (unit price present, so the row is still emitted), and its
text stream supplies the same item with a contractor row that inherits
quantity 500 / unit CUYD from the engineer reference line. -/
def c1doc : PageT :=
  { text := [],
    tables := [[(["A0200", "15101-0000", "MOBILIZATION", "Acme Corp.",
      "", "", "100.00", "50000.00"]).map String.toList]] }

def c1texts : List Str :=
  ["A0200 15101-0000 MOBILIZATION
Acme Corp. $100.00
Engineers Estimate 500 CUYD $100.00 $50,000.00".toList]

def c1key : Option Str × Str × Str × Str :=
  (none, "A0200".toList, "15101-0000".toList, "Acme Corp.".toList)

/-- C1 counterexample: the claim fails on `parser_v2.py`, one of the two
cited reconciliations.  Its `parse_pdf` uses the table output as-is when
non-empty (`items = parse_line_items_tables(...); if not items: items =
parse_line_items_text(...)`): on the document above the table strategy
emits one record with absent quantity/unit, the text strategy emits a
record with the same reconciliation key carrying quantity 500 and unit
CUYD, and the final output's record still has both fields absent — not
copied as the claim requires. -/
theorem C1_counterexample :
    (parse_line_items_tables [c1doc] none).map itemKey = [c1key] ∧
    (parse_line_items_tables [c1doc] none).map (fun r => r.quantity) = [none] ∧
    (parse_line_items_tables [c1doc] none).map (fun r => r.unit) = [none] ∧
    ((parse_line_items_text c1texts none []).filter
      (fun r => decide (itemKey r = c1key))).map (fun r => r.quantity) = [some 500] ∧
    ((parse_line_items_text c1texts none []).filter
      (fun r => decide (itemKey r = c1key))).map (fun r => r.unit) =
      [some ("CUYD".toList)] ∧
    (reconcile_v2 (parse_line_items_tables [c1doc] none)
      (parse_line_items_text c1texts none [])).map (fun r => r.quantity) = [none] ∧
    (reconcile_v2 (parse_line_items_tables [c1doc] none)
      (parse_line_items_text c1texts none [])).map (fun r => r.unit) = [none] := by
  refine ⟨by decide, by decide, by decide, by decide, by decide, by decide, by decide⟩

/-- C1 as amended: in `parser_v1.py` the reconciliation behaves as the
claim states — an empty table output yields the text output unchanged,
and otherwise the output is exactly the table records with each record's
absent quantity/unit copied from a text record sharing its key (when one
exists) and every other field untouched; in `parser_v2.py` the table
output, when non-empty, is used without any back-fill, and an empty table
output again yields the text output unchanged. -/
theorem C1_theorem (t x : List LineItemRec) :
    (t = [] → reconcile_v1 t x = x ∧ reconcile_v2 t x = x) ∧
    (t ≠ [] → reconcile_v1 t x = t.map (backfillQtyUnit x) ∧ reconcile_v2 t x = t) ∧
    (∀ r : LineItemRec,
      nonQtyUnit (backfillQtyUnit x r) = nonQtyUnit r ∧
      (∀ q, r.quantity = some q → (backfillQtyUnit x r).quantity = some q) ∧
      (∀ u, r.unit = some u → (backfillQtyUnit x r).unit = some u) ∧
      ((∀ s ∈ x, itemKey s ≠ itemKey r) → backfillQtyUnit x r = r) ∧
      (∀ s, x.reverse.find? (fun it => decide (itemKey it = itemKey r)) = some s →
        s ∈ x ∧ itemKey s = itemKey r ∧
        (r.quantity = none → (backfillQtyUnit x r).quantity = s.quantity) ∧
        (r.unit = none → (backfillQtyUnit x r).unit = s.unit)) ∧
      ((∃ s ∈ x, itemKey s = itemKey r) →
        (x.reverse.find? (fun it => decide (itemKey it = itemKey r))).isSome)) := by
  refine ⟨?_, ?_, ?_⟩
  · intro ht
    subst ht
    exact ⟨rfl, rfl⟩
  · intro ht
    cases t with
    | nil => exact absurd rfl ht
    | cons a t' => exact ⟨rfl, rfl⟩
  · intro r
    refine ⟨backfill_nonQtyUnit x r, ?_, ?_, backfill_no_match x r, ?_, ?_⟩
    · intro q hq
      exact backfill_qty_preserved x r q hq
    · intro u hu
      exact backfill_unit_preserved x r u hu
    · intro s hfind
      have h := backfill_from_last x r s hfind
      exact ⟨h.2.1, h.2.2.1, h.2.2.2.1, h.2.2.2.2⟩
    · intro hex
      obtain ⟨s, hs, hkey⟩ := hex
      exact List.find?_isSome.mpr ⟨s, List.mem_reverse.mpr hs, by simp [hkey]⟩

theorem C1_theorem_witness :
    reconcile_v2 [c1r] [c1s] = [c1r] ∧
    reconcile_v1 [c1r] [c1s] =
      [{ c1r with quantity := some 500, unit := some ("CUYD".toList) }] := by
  refine ⟨((C1_theorem [c1r] [c1s]).2.1 (by simp)).2, ?_⟩
  rw [((C1_theorem [c1r] [c1s]).2.1 (by simp)).1]
  decide

/-- Text records sharing one key with conflicting quantities (earlier 111,
later 222). -/
def c9s1 : LineItemRec := { c1s with pdf_page := 3, quantity := some 111 }

def c9s2 : LineItemRec := { c1s with pdf_page := 7, quantity := some 222 }

/-- C9 counterexample: with two text records sharing the key of a
quantity-less table record, the back-fill copies the LATER record's
quantity (222), not the first one's (111): the index assignment
`index[key] = it` lets later records overwrite earlier ones. -/
theorem C9_counterexample :
    itemKey c9s1 = itemKey c1r ∧ itemKey c9s2 = itemKey c1r ∧
    c9s1.quantity = some 111 ∧ c9s2.quantity = some 222 ∧ c1r.quantity = none ∧
    (merge_qty_unit_from_text [c1r] [c9s1, c9s2]).map (fun r => r.quantity) =
      [some 222] ∧
    (some (222 : ℚ) ≠ some (111 : ℚ)) := by
  decide

/-- C9 as amended: when several text records share the reconciliation key,
the quantity/unit back-fill takes its values from the LAST such record in
extraction order (the first match of the reversed list), not the first. -/
theorem C9_theorem (x : List LineItemRec) (r s : LineItemRec)
    (hfind : x.reverse.find? (fun it => decide (itemKey it = itemKey r)) = some s) :
    mergeIndexLookup x (itemKey r) = some s ∧ s ∈ x ∧ itemKey s = itemKey r ∧
    (r.quantity = none → (backfillQtyUnit x r).quantity = s.quantity) ∧
    (r.unit = none → (backfillQtyUnit x r).unit = s.unit) :=
  backfill_from_last x r s hfind

theorem C9_theorem_witness :
    mergeIndexLookup [c9s1, c9s2] (itemKey c1r) = some c9s2 ∧
    (backfillQtyUnit [c9s1, c9s2] c1r).quantity = some 222 := by
  have h := C9_theorem [c9s1, c9s2] c1r c9s2 (by decide)
  exact ⟨h.1, by rw [h.2.2.2.1 (by decide)]; decide⟩

/-- The acceptance condition the claim names: the header row carries both
markers, or some row's first two cells match both code patterns. -/
def tableCond (table : List (List Str)) : Bool :=
  tableHasHeader table || table.any rowHasSig

/-- C5 counterexample: the claimed "if and only if" fails in the forward
direction — a table satisfying the acceptance condition can still emit no
records.  A header-only table (no data rows) is accepted by the header
test yet contributes nothing. -/
def c5header : List (List Str) :=
  [(["Line Item No.", "Pay Item No.", "Description", "Contractor",
    "Quantity", "Unit", "Unit Price", "Amount"]).map String.toList]

theorem C5_counterexample :
    tableCond c5header = true ∧
    tableRecords 1 none none none none c5header = [] ∧
    parse_line_items_tables [{ text := [], tables := [c5header] }] none = [] := by
  decide

/-- C5 as amended: the table-strategy extractor emits records from a table
ONLY IF the table's header row contains both a `Line Item` and a
`Pay Item` marker or some row's first two cells match the line-item and
pay-item code patterns; a table satisfying neither condition contributes
no records at all (rejected whole, never partially parsed).  The converse
does not hold: an accepted table may still emit nothing. -/
theorem C5_theorem (pageno : Nat) (project sp ls opt : Option Str)
    (table : List (List Str)) (h : tableCond table = false) :
    tableRecords pageno project sp ls opt table = [] := by
  unfold tableCond at h
  rw [Bool.or_eq_false_iff] at h
  obtain ⟨hh, hs⟩ := h
  cases table with
  | nil => rfl
  | cons hd rest => simp [tableRecords, hh, hs]

/-- A signature-less, header-less table (a signature block): rejected whole. -/
def c5rejected : List (List Str) :=
  [(["Authorized Signature", "Date"]).map String.toList,
    (["John Doe", "01/02/2024"]).map String.toList]

theorem C5_theorem_witness :
    tableCond c5rejected = false ∧
    tableRecords 1 none none none none c5rejected = [] :=
  ⟨by decide, C5_theorem 1 none none none none c5rejected (by decide)⟩

/-! ### Sticky-schedule lemmas (C2) -/

theorem schedVal_of_some {sp ls : Option Str} {v : Str}
    (hv : (match sp with | some x => some x | none => ls) = some v) (li : Str) :
    schedVal sp ls li = some v := by
  unfold schedVal
  rw [hv]

theorem tableRowsGo_mem (pageno : Nat) (project sp ls opt : Option Str) :
    ∀ (rows : List (List Str)) (cur : Option Str × Option Str × Option Str)
      (r : LineItemRec), r ∈ tableRowsGo pageno project sp ls opt rows cur →
      r.pdf_page = pageno ∧ r.option = opt ∧ ∃ li, r.schedule = schedVal sp ls li := by
  intro rows
  induction rows with
  | nil => intro cur r hr; simp [tableRowsGo] at hr
  | cons row rest ih =>
    intro cur r hr
    simp only [tableRowsGo] at hr
    iterate 10 all_goals try split at hr
    all_goals try exact ih _ r hr
    all_goals
      rcases List.mem_cons.mp hr with rfl | hr'
      · exact ⟨rfl, rfl, ⟨_, rfl⟩⟩
      · exact ih _ r hr'

theorem tableRecords_mem (pageno : Nat) (project sp ls opt : Option Str)
    (table : List (List Str)) (r : LineItemRec)
    (hr : r ∈ tableRecords pageno project sp ls opt table) :
    r.pdf_page = pageno ∧ r.option = opt ∧ ∃ li, r.schedule = schedVal sp ls li := by
  unfold tableRecords at hr
  split at hr
  · simp at hr
  · split at hr
    · simp at hr
    · split at hr
      · exact tableRowsGo_mem pageno project sp ls opt _ _ r hr
      · split at hr
        · exact tableRowsGo_mem pageno project sp ls opt _ _ r hr
        · simp at hr

theorem contractorRow_fields (ctx : TextCtx) (bl name : Str) (r : LineItemRec)
    (h : contractorRow ctx bl name = some r) :
    r.pdf_page = ctx.pageno ∧ r.schedule = ctx.sched ∧ r.option = ctx.opt := by
  unfold contractorRow at h
  split at h
  · exact absurd h (by simp)
  · rw [Option.some.injEq] at h
    subst h
    exact ⟨rfl, rfl, rfl⟩

theorem blockRows_mem (ctx : TextCtx) :
    ∀ (fuel : Nat) (blines nameParts : List Str) (r : LineItemRec),
      r ∈ blockRows ctx fuel blines nameParts →
      r.pdf_page = ctx.pageno ∧ r.schedule = ctx.sched ∧ r.option = ctx.opt := by
  intro fuel
  induction fuel with
  | zero => intro blines np r hr; simp [blockRows] at hr
  | succ n ih =>
    intro blines np r hr
    cases blines with
    | nil => simp [blockRows] at hr
    | cons bl rest =>
      simp only [blockRows] at hr
      split at hr
      · rcases List.mem_cons.mp hr with rfl | hr'
        · exact ⟨rfl, rfl, rfl⟩
        · exact ih _ _ r hr'
      · split at hr
        · split at hr
          · split at hr
            · rcases List.mem_append.mp hr with hl | hr'
              · rcases Option.mem_toList.mp hl with hsome
                exact contractorRow_fields ctx _ _ r hsome
              · exact ih _ _ r hr'
            · rcases List.mem_append.mp hr with hl | hr'
              · rcases Option.mem_toList.mp hl with hsome
                exact contractorRow_fields ctx _ _ r hsome
              · exact ih _ _ r hr'
          · rcases Option.mem_toList.mp hr with hsome
            exact contractorRow_fields ctx _ _ r hsome
        · exact ih _ _ r hr

theorem parseBlock_mem (pageno : Nat) (project sched opt : Option Str)
    (frags : List Str) (h : Str × Str × Str) (block : List Str) (r : LineItemRec)
    (hr : r ∈ parseBlock pageno project sched opt frags h block) :
    r.pdf_page = pageno ∧ r.schedule = sched ∧ r.option = opt := by
  unfold parseBlock at hr
  exact blockRows_mem _ _ _ _ r hr

/-- The per-page schedule tag of the text strategy's own line scan
(normalised, non-empty lines; no carry-in from earlier pages). -/
def textPageSched (page : Str) : Option Str :=
  (linesTagScan (((splitLines page).map normalize_ws).filter (fun l => !l.isEmpty))).1

theorem pageTextRecords_mem (pageno : Nat) (project : Option Str) (frags : List Str)
    (page : Str) (r : LineItemRec) (hr : r ∈ pageTextRecords pageno project frags page) :
    r.pdf_page = pageno ∧ r.schedule = textPageSched page := by
  unfold pageTextRecords at hr
  rw [List.mem_join] at hr
  obtain ⟨l, hl, hrl⟩ := hr
  rw [List.mem_map] at hl
  obtain ⟨seg, _, rfl⟩ := hl
  have h := parseBlock_mem _ _ _ _ _ _ _ r hrl
  exact ⟨h.1, h.2.1⟩

/-- C2 as amended: on a two-page document whose first page carries a
schedule tag and whose second page carries none, the TABLE strategy is
sticky — every record extracted from page 2 reports the page-1 schedule —
but the TEXT strategy is not: its per-page scan starts from `None` on
every page, so every record it extracts from page 2 reports an absent
schedule, not the page-1 value. -/
theorem C2_theorem (p1 p2 : PageT) (project : Option Str) (contractors : List Str)
    (v : Str)
    (h1 : (pageTagScan p1.text).1 = some v)
    (h2 : (pageTagScan p2.text).1 = none)
    (h3 : textPageSched p2.text = none) :
    (∀ r ∈ parse_line_items_tables [p1, p2] project,
      r.pdf_page = 2 → r.schedule = some v) ∧
    (∀ r ∈ parse_line_items_text [p1.text, p2.text] project contractors,
      r.pdf_page = 2 → r.schedule = none) := by
  constructor
  · intro r hr hp
    simp only [parse_line_items_tables, parse_line_items_tables.go, h1, h2,
      List.append_nil, List.mem_append] at hr
    rcases hr with hr1 | hr2
    · rw [List.mem_join] at hr1
      obtain ⟨l, hl, hrl⟩ := hr1
      rw [List.mem_map] at hl
      obtain ⟨tb, _, rfl⟩ := hl
      have := (tableRecords_mem _ _ _ _ _ _ r hrl).1
      omega
    · rw [List.mem_join] at hr2
      obtain ⟨l, hl, hrl⟩ := hr2
      rw [List.mem_map] at hl
      obtain ⟨tb, _, rfl⟩ := hl
      obtain ⟨-, -, li, hsched⟩ := tableRecords_mem _ _ _ _ _ _ r hrl
      rw [hsched]
      exact schedVal_of_some rfl li
  · intro r hr hp
    simp only [parse_line_items_text, parse_line_items_text.go, List.append_nil,
      List.mem_append] at hr
    rcases hr with hr1 | hr2
    · have := (pageTextRecords_mem _ _ _ _ r hr1).1
      omega
    · have h := pageTextRecords_mem _ _ _ _ r hr2
      rw [h.2, h3]

/-- The concrete C2 document text: page 1 tagged `Schedule: A`, page 2
untagged but containing a full item block. -/
def c2p1text : Str :=
  "Schedule: A\nA0100 10000-0000 CLEARING\nEngineers Estimate 500 CUYD $100.00 $50,000.00".toList

def c2p2text : Str :=
  "A0300 15102-0000 GRADING\nEngineers Estimate 10 TON $5.00 $50.00".toList

/-- C2 counterexample: on the document above — page 1 sets schedule `A`,
page 2 has no schedule tag — the TEXT strategy extracts exactly one record
from page 2 and it reports an absent schedule, not `A`: the text
strategy's context scan restarts at `None` on every page. -/
theorem C2_counterexample :
    (pageTagScan c2p1text).1 = some ['A'] ∧
    (pageTagScan c2p2text).1 = none ∧
    ((parse_line_items_text [c2p1text, c2p2text] none []).filter
      (fun r => r.pdf_page == 2)).map (fun r => r.schedule) = [none] := by
  decide

def c2w1 : PageT := { text := "Schedule: A".toList, tables := [] }

def c2w2 : PageT :=
  { text := [],
    tables := [[(["A0300", "15102-0000", "GRADING", "Acme Corp.",
      "10", "TON", "5.00", "50.00"]).map String.toList]] }

theorem C2_theorem_witness :
    (parse_line_items_tables [c2w1, c2w2] none).map
      (fun r => (r.pdf_page, r.schedule)) = [(2, some ['A'])] ∧
    (∀ r ∈ parse_line_items_tables [c2w1, c2w2] none,
      r.pdf_page = 2 → r.schedule = some ['A']) :=
  ⟨by decide,
    (C2_theorem c2w1 c2w2 none [] ['A'] (by decide) (by decide) (by decide)).1⟩

/-! ### Zero-amount drop lemmas (C10) -/

theorem mkBid1_ne_zero {pageno : Nat} {meta : BidMeta} {sched opt : Option Str}
    {cand : Str} {r : BidRec} (h : mkBid1 pageno meta sched opt cand = some r) :
    r.bid_amount ≠ 0 := by
  simp only [mkBid1] at h
  iterate 8 all_goals try split at h
  all_goals
    first
    | (rw [Option.some.injEq] at h
       subst h
       simp_all)
    | simp at h

theorem mkBid2_ne_zero {pageno : Nat} {meta : BidMeta} {sched opt : Option Str}
    {m : Str × Str × Option Str} {r : BidRec}
    (h : mkBid2 pageno meta sched opt m = some r) : r.bid_amount ≠ 0 := by
  simp only [mkBid2] at h
  iterate 8 all_goals try split at h
  all_goals
    first
    | (rw [Option.some.injEq] at h
       subst h
       simp_all)
    | simp at h

theorem pageBids_ne_zero {pageno : Nat} {meta : BidMeta} {page : Str} {r : BidRec}
    (hr : r ∈ pageBids pageno meta page) : r.bid_amount ≠ 0 := by
  unfold pageBids at hr
  split at hr
  · simp at hr
  · split at hr
    · simp at hr
    · rcases List.mem_append.mp hr with h1 | h2
      · unfold pass1Bids at h1
        rw [List.mem_filterMap] at h1
        obtain ⟨w, -, hw⟩ := h1
        split at hw
        · exact mkBid1_ne_zero hw
        · exact absurd hw (by simp)
      · rw [List.mem_filterMap] at h2
        obtain ⟨m, -, hm⟩ := h2
        exact mkBid2_ne_zero hm

theorem bidGo_ne_zero (meta : BidMeta) :
    ∀ (pages : List Str) (pageno : Nat) (r : BidRec),
      r ∈ parse_bid_amounts.go meta pages pageno → r.bid_amount ≠ 0 := by
  intro pages
  induction pages with
  | nil => intro pageno r hr; simp [parse_bid_amounts.go] at hr
  | cons p rest ih =>
    intro pageno r hr
    simp only [parse_bid_amounts.go] at hr
    rcases List.mem_append.mp hr with h1 | h2
    · exact pageBids_ne_zero h1
    · exact ih _ r h2

/-- The C10 document: a summary page whose only contractor line carries
the amount `$0.00`. -/
def c10zero : List Str :=
  ["Contractor Responsive?\nAcme Builders Co. $0.00".toList]

/-- C10: the bid-summary extractor never emits a record with bid_amount 0
— both emission sites test the parsed amount for truthiness (`if amt:` /
`if not amt: continue`), which 0.0 fails — even though the money parser
itself returns 0.0 for the token `$0.00`; on the concrete page above, a
candidate contractor line with `$0.00` is silently dropped and the output
is empty. -/
theorem C10_theorem (pages : List Str) (meta : BidMeta) :
    (∀ r ∈ parse_bid_amounts pages meta, r.bid_amount ≠ 0) ∧
    money_to_float ("$0.00".toList) = some 0 ∧
    parse_bid_amounts c10zero c4meta = [] := by
  refine ⟨?_, by decide, by decide⟩
  intro r hr
  have hmem : r ∈ parse_bid_amounts.go meta pages 1 :=
    (dedupBidsGo_sublist (parse_bid_amounts.go meta pages 1) []).subset hr
  exact bidGo_ne_zero meta pages 1 r hmem

theorem C10_theorem_witness :
    parse_bid_amounts c4pages c4meta = [c4rec] ∧ c4rec.bid_amount ≠ 0 :=
  ⟨by decide,
    (C10_theorem c4pages c4meta).1 c4rec
      (by rw [show parse_bid_amounts c4pages c4meta = [c4rec] from by decide]
          exact List.mem_singleton.mpr rfl)⟩
